import Mathlib

/-!
Verification of the streaming Wikipedia-dump text extractor
(`src/tools/extract_wiki_text.py`): a shallow embedding of its cleaning
pipeline (`clean_text`) and of its event-processing loop
(`extract_articles`), together with theorems settling the frozen claims.

Strings are embedded as `List Char` (Python `len` on `str` counts
characters, as `List.length` does here). Each regex substitution of the
source is embedded as a left-to-right scanner with the exact semantics of
Python `re.sub`: at each position the pattern is attempted (greedy and lazy
sub-patterns with their backtracking order made explicit); on a match the
replacement is emitted and scanning resumes after the match, otherwise one
character is emitted and the scan advances by one. Every scanner consumes
at least one input character per step, so each runs on a fuel argument
initialised to the input length, and the fuel can never run out.
-/

/-- Python `\s` (and the whitespace of `str.strip`) restricted to ASCII:
space, tab, newline, carriage return, vertical tab, form feed. The inputs
treated here are ASCII, so the Unicode-only whitespace is out of scope. -/
def pyIsSpace (c : Char) : Bool :=
  c == ' ' || c == '\t' || c == '\n' || c == '\r' || c == '\x0b' || c == '\x0c'

/-- Scanner of `re.sub(r'\x7b\x7b[^}]*\x7d\x7d', '', text)` (template removal):
at a double open brace, the greedy run of non-close-brace characters must be
followed by a double close brace; the whole match is deleted. On failure the
scan advances one character. -/
def stripTemplatesGo : Nat → List Char → List Char
  | 0, l => l
  | _ + 1, [] => []
  | fuel + 1, c1 :: rest1 =>
    match rest1 with
    | [] => [c1]
    | c2 :: rest2 =>
      if c1 = '{' ∧ c2 = '{' then
        match rest2.dropWhile (fun c => c != '}') with
        | d1 :: d2 :: r =>
          if d1 = '}' ∧ d2 = '}' then stripTemplatesGo fuel r
          else c1 :: stripTemplatesGo fuel rest1
        | _ => c1 :: stripTemplatesGo fuel rest1
      else c1 :: stripTemplatesGo fuel rest1

def stripTemplates (l : List Char) : List Char := stripTemplatesGo l.length l

/-- The link pattern `\[\[([^|\]]*\|)?([^\]]*)\]\]` with its optional first
group absent: the greedy run of non-`]` characters is group 2 and must be
followed by `]]`. Returns (group 2, input after the match). -/
def linkNoPipe (l : List Char) : Option (List Char × List Char) :=
  match l.dropWhile (fun c => c != ']') with
  | d1 :: d2 :: r =>
    if d1 = ']' ∧ d2 = ']' then some (l.takeWhile (fun c => c != ']'), r)
    else none
  | _ => none

/-- The match attempt of `re.sub(r'\[\[([^|\]]*\|)?([^\]]*)\]\]', r'\2', text)`
at the position just after `[[`. The optional first group is tried first
(greedy run of characters other than `|` and `]`, then a literal `|`); the
second group is the greedy run of non-`]` characters and must be followed by
`]]`. If the piped attempt fails, the engine retries with the first group
absent (`linkNoPipe`). Returns (group 2, input after the match). -/
def linkMatch (l : List Char) : Option (List Char × List Char) :=
  match l.dropWhile (fun c => c != '|' && c != ']') with
  | p :: afterPipe =>
    if p = '|' then
      match afterPipe.dropWhile (fun c => c != ']') with
      | d1 :: d2 :: r =>
        if d1 = ']' ∧ d2 = ']' then some (afterPipe.takeWhile (fun c => c != ']'), r)
        else linkNoPipe l
      | _ => linkNoPipe l
    else linkNoPipe l
  | [] => linkNoPipe l

/-- Scanner of the link-unwrapping substitution: at `[[`, `linkMatch` decides
the match; its group 2 is emitted in place of the matched span. -/
def removeLinksGo : Nat → List Char → List Char
  | 0, l => l
  | _ + 1, [] => []
  | fuel + 1, c1 :: rest1 =>
    match rest1 with
    | [] => [c1]
    | c2 :: rest2 =>
      if c1 = '[' ∧ c2 = '[' then
        match linkMatch rest2 with
        | some (rep, r) => rep ++ removeLinksGo fuel r
        | none => c1 :: removeLinksGo fuel rest1
      else c1 :: removeLinksGo fuel rest1

def removeLinks (l : List Char) : List Char := removeLinksGo l.length l

/-- Drop the input through the first occurrence of `</ref>`: the lazy
`.*?</ref>` of the paired-reference rule under DOTALL (the dot also crosses
newlines, which character-by-character scanning does anyway). -/
def dropToRefClose : List Char → Option (List Char)
  | [] => none
  | c :: rest =>
    if c = '<' ∧ rest.take 5 = ['/', 'r', 'e', 'f', '>'] then some (rest.drop 5)
    else dropToRefClose rest

/-- Scanner of `re.sub(r'<ref[^>]*>.*?</ref>', '', text, flags=re.DOTALL)`:
after a literal `<ref`, the greedy run of non-`>` characters must reach a `>`,
and then the closing `</ref>` nearest to the left is sought; the whole span is
deleted. -/
def removeRefPairsGo : Nat → List Char → List Char
  | 0, l => l
  | _ + 1, [] => []
  | fuel + 1, c :: rest =>
    if c = '<' ∧ rest.take 3 = ['r', 'e', 'f'] then
      match (rest.drop 3).dropWhile (fun c => c != '>') with
      | g :: r2 =>
        if g = '>' then
          match dropToRefClose r2 with
          | some r3 => removeRefPairsGo fuel r3
          | none => c :: removeRefPairsGo fuel rest
        else c :: removeRefPairsGo fuel rest
      | [] => c :: removeRefPairsGo fuel rest
    else c :: removeRefPairsGo fuel rest

def removeRefPairs (l : List Char) : List Char := removeRefPairsGo l.length l

/-- Scanner of `re.sub(r'<ref[^>]*\/>', '', text)`: after `<ref`, the greedy
run of non-`>` characters backtracks exactly one step, so the rule matches
precisely when that run is nonempty, ends with `/` and is followed by `>`. -/
def removeSelfCloseRefsGo : Nat → List Char → List Char
  | 0, l => l
  | _ + 1, [] => []
  | fuel + 1, c :: rest =>
    if c = '<' ∧ rest.take 3 = ['r', 'e', 'f'] then
      match (rest.drop 3).dropWhile (fun c => c != '>') with
      | g :: r2 =>
        if g = '>' ∧ ((rest.drop 3).takeWhile (fun c => c != '>')).getLast? = some '/' then
          removeSelfCloseRefsGo fuel r2
        else c :: removeSelfCloseRefsGo fuel rest
      | [] => c :: removeSelfCloseRefsGo fuel rest
    else c :: removeSelfCloseRefsGo fuel rest

def removeSelfCloseRefs (l : List Char) : List Char := removeSelfCloseRefsGo l.length l

/-- Scanner of `re.sub(r'<[^>]+>', '', text)` (generic tag stripping): a `<`,
a nonempty run of non-`>` characters and a `>` are deleted together. -/
def stripTagsGo : Nat → List Char → List Char
  | 0, l => l
  | _ + 1, [] => []
  | fuel + 1, c :: rest =>
    if c = '<' then
      match rest.dropWhile (fun c => c != '>') with
      | g :: r2 =>
        if g = '>' ∧ rest.takeWhile (fun c => c != '>') ≠ [] then stripTagsGo fuel r2
        else c :: stripTagsGo fuel rest
      | [] => c :: stripTagsGo fuel rest
    else c :: stripTagsGo fuel rest

def stripTags (l : List Char) : List Char := stripTagsGo l.length l

/-- Scanner of the bold-marker rule: every occurrence of three consecutive
apostrophes is deleted. -/
def removeBoldGo : Nat → List Char → List Char
  | 0, l => l
  | _ + 1, [] => []
  | fuel + 1, c :: rest =>
    if c = '\'' ∧ rest.take 2 = ['\'', '\''] then removeBoldGo fuel (rest.drop 2)
    else c :: removeBoldGo fuel rest

def removeBold (l : List Char) : List Char := removeBoldGo l.length l

/-- Scanner of the italic-marker rule: every occurrence of two consecutive
apostrophes (after bold removal) is deleted. -/
def removeItalicGo : Nat → List Char → List Char
  | 0, l => l
  | _ + 1, [] => []
  | fuel + 1, c :: rest =>
    if c = '\'' ∧ rest.take 1 = ['\''] then removeItalicGo fuel (rest.drop 1)
    else c :: removeItalicGo fuel rest

def removeItalic (l : List Char) : List Char := removeItalicGo l.length l

def isListMarker (c : Char) : Bool := c == '*' || c == '#' || c == ':' || c == ';'

/-- Scanner of `re.sub(r'^[*#:;]+', '', text, flags=re.MULTILINE)`: at a
line-start position (the start of the text or just after a newline) a nonempty
run of list/indent markers is deleted; the position after the deleted run is
not a line start. -/
def stripListMarkersGo : Nat → Bool → List Char → List Char
  | 0, _, l => l
  | _ + 1, _, [] => []
  | fuel + 1, atStart, c :: rest =>
    if atStart ∧ isListMarker c then
      stripListMarkersGo fuel false ((c :: rest).dropWhile isListMarker)
    else c :: stripListMarkersGo fuel (c = '\n') rest

def stripListMarkers (l : List Char) : List Char := stripListMarkersGo l.length true l

/-- The tail test of the header rule `^=+\s*(.+?)\s*=+$` once the leading
`=+`, the `\s*` after it, and the lazy group have been fixed: the remaining
input must begin with a greedy whitespace run and then a nonempty run of `=`
ending at the end of the input or just before a newline (MULTILINE `$`).
Shorter whitespace or `=` runs cannot rescue a failure, so this is exact.
Returns the input after the match. -/
def headerTail (s : List Char) : Option (List Char) :=
  let t := s.dropWhile pyIsSpace
  let r := t.dropWhile (fun c => c == '=')
  if t.takeWhile (fun c => c == '=') ≠ [] ∧ (r = [] ∨ r.head? = some '\n') then some r
  else none

/-- The lazy group `(.+?)` of the header rule, tried at sizes `i, i+1, …`
(the group cannot cross a newline); `budget` counts the candidate sizes left.
Returns (group 1, input after the match). -/
def headerInner (l2 : List Char) : Nat → Nat → Option (List Char × List Char)
  | _, 0 => none
  | i, budget + 1 =>
    match headerTail (l2.drop i) with
    | some r => some (l2.take i, r)
    | none => headerInner l2 (i + 1) budget

/-- One choice of the greedy `\s*` after the leading `=+`: `w` whitespace
characters are consumed, then the lazy group is searched within the line. -/
def headerTryW (l1 : List Char) (w : Nat) : Option (List Char × List Char) :=
  let l2 := l1.drop w
  headerInner l2 1 ((l2.takeWhile (fun c => c != '\n')).length)

/-- The greedy `\s*` after the leading `=+`, backtracking from the maximal
whitespace run (`headerSearchW l1 wMax` tries `w = wMax, wMax - 1, …, 0`). -/
def headerSearchW (l1 : List Char) : Nat → Option (List Char × List Char)
  | 0 => headerTryW l1 0
  | w + 1 =>
    match headerTryW l1 (w + 1) with
    | some res => some res
    | none => headerSearchW l1 w

/-- One choice of the greedy leading `=+`: `e` characters are consumed (all
of them `=` whenever `e` is at most the length of the leading `=` run, which
`headerMatch` guarantees), then the `\s*` after it is searched greedily. -/
def headerTryE (l : List Char) (e : Nat) : Option (List Char × List Char) :=
  let l1 := l.drop e
  headerSearchW l1 ((l1.takeWhile pyIsSpace).length)

/-- The greedy leading `=+`, backtracking from the maximal `=` run down to a
single `=` (`headerSearchE l eMax` tries `e = eMax, eMax - 1, …, 1`). -/
def headerSearchE (l : List Char) : Nat → Option (List Char × List Char)
  | 0 => none
  | e + 1 =>
    match headerTryE l (e + 1) with
    | some res => some res
    | none => headerSearchE l e

/-- The whole-match attempt of `re.sub(r'^=+\s*(.+?)\s*=+$', r'\1', text,
flags=re.MULTILINE)` at a line-start position, with the backtracking order of
the engine: the leading `=+` greedy (longest first), then the `\s*` greedy,
then the group lazy (shortest first); the trailing `\s*` and `=+` are
deterministic (`headerTail`). Returns (group 1, input after the match). -/
def headerMatch (l : List Char) : Option (List Char × List Char) :=
  headerSearchE l ((l.takeWhile (fun c => c == '=')).length)

/-- Scanner of the header-normalization rule: at every line-start position the
anchored pattern is attempted; on a match, group 1 replaces the span (which
may absorb newlines through its `\s*` parts, hence whole-text scanning rather
than per-line). The position after a match sits just before a newline or at
the end, and is not itself a line start. -/
def stripHeadersGo : Nat → Bool → List Char → List Char
  | 0, _, l => l
  | _ + 1, _, [] => []
  | fuel + 1, atStart, c :: rest =>
    if atStart then
      match headerMatch (c :: rest) with
      | some (inner, r) => inner ++ stripHeadersGo fuel false r
      | none => c :: stripHeadersGo fuel (c = '\n') rest
    else c :: stripHeadersGo fuel (c = '\n') rest

def stripHeaders (l : List Char) : List Char := stripHeadersGo l.length true l

/-- The tail of `re.sub(r'https?://\S+', '', text)` after the literal `://`:
a nonempty greedy run of non-whitespace characters. -/
def urlAfterScheme (m : List Char) : Option (List Char) :=
  if m.take 3 = [':', '/', '/'] then
    let run := (m.drop 3).takeWhile (fun c => !(pyIsSpace c))
    if run = [] then none else some ((m.drop 3).drop run.length)
  else none

/-- The tail of the URL rule after the literal `http`: the optional `s` is
greedy, so it is consumed first and the engine retries without it on
failure. -/
def urlTail (l : List Char) : Option (List Char) :=
  if l.head? = some 's' then
    match urlAfterScheme l.tail with
    | some res => some res
    | none => urlAfterScheme l
  else urlAfterScheme l

/-- Scanner of the URL-stripping rule. -/
def stripURLsGo : Nat → List Char → List Char
  | 0, l => l
  | _ + 1, [] => []
  | fuel + 1, c :: rest =>
    if c = 'h' ∧ rest.take 3 = ['t', 't', 'p'] then
      match urlTail (rest.drop 3) with
      | some r => stripURLsGo fuel r
      | none => c :: stripURLsGo fuel rest
    else c :: stripURLsGo fuel rest

def stripURLs (l : List Char) : List Char := stripURLsGo l.length l

/-- Scanner of `re.sub(r'\n\n+', '\n\n', text)`: a maximal run of at least
two newlines is replaced by exactly two. -/
def collapseNewlinesGo : Nat → List Char → List Char
  | 0, l => l
  | _ + 1, [] => []
  | fuel + 1, c :: rest =>
    if c = '\n' ∧ rest.head? = some '\n' then
      '\n' :: '\n' :: collapseNewlinesGo fuel (rest.dropWhile (fun c => c == '\n'))
    else c :: collapseNewlinesGo fuel rest

def collapseNewlines (l : List Char) : List Char := collapseNewlinesGo l.length l

/-- Scanner of `re.sub(r' +', ' ', text)`: a maximal run of one or more
space characters is replaced by a single space, so in particular a double
space collapses to one. -/
def collapseSpacesGo : Nat → List Char → List Char
  | 0, l => l
  | _ + 1, [] => []
  | fuel + 1, c :: rest =>
    if c = ' ' then ' ' :: collapseSpacesGo fuel (rest.dropWhile (fun c => c == ' '))
    else c :: collapseSpacesGo fuel rest

def collapseSpaces (l : List Char) : List Char := collapseSpacesGo l.length l

/-- Python `str.strip()` on ASCII text: leading and trailing whitespace
removed. -/
def pyStrip (l : List Char) : List Char :=
  ((l.dropWhile pyIsSpace).reverse.dropWhile pyIsSpace).reverse

/-- The cleaning pipeline `clean_text` of `src/tools/extract_wiki_text.py`,
with its rules in source order: templates, links, paired references,
self-closing references, generic tags, bold markers, italic markers,
list/indent markers, headers, URLs, newline collapsing, space collapsing,
final strip. The leading test mirrors `if not text: return ""` (the `None`
case is handled by `Option` at the call site). -/
def clean_text (text : String) : String :=
  if text = "" then ""
  else
    (pyStrip (collapseSpaces (collapseNewlines (stripURLs (stripHeaders
      (stripListMarkers (removeItalic (removeBold (stripTags
        (removeSelfCloseRefs (removeRefPairs (removeLinks
          (stripTemplates text.toList))))))))))))).asString

/-- Variant pipeline stated by the spec for the ordering regression check:
identical to `clean_text` except that generic tag stripping runs before the
two reference-stripping rules. -/
def clean_text_tagsFirst (text : String) : String :=
  if text = "" then ""
  else
    (pyStrip (collapseSpaces (collapseNewlines (stripURLs (stripHeaders
      (stripListMarkers (removeItalic (removeBold (removeSelfCloseRefs
        (removeRefPairs (stripTags (removeLinks
          (stripTemplates text.toList))))))))))))).asString

/-- Python's `elem.tag.split('\x7d')[-1]` (namespace removal): the characters
after the last `\x7d` of the tag, the whole tag when it has none. -/
def localName (tag : String) : String :=
  (tag.toList.foldl (fun acc c => if c = '}' then [] else acc ++ [c]) []).asString

/-- An event of `xml.etree.ElementTree.iterparse` as `extract_articles`
consumes it: a start event (only its tag is inspected) or an end event with
the element's text, `none` standing for Python `None` on an empty element. -/
inductive ElemEvent where
  | start (tag : String)
  | endTag (tag : String) (text : Option String)
deriving DecidableEq

/-- Python truthiness of an optional string: `None` and `""` are falsy. -/
def truthy : Option String → Bool
  | none => false
  | some s => s != ""

/-- The namespace prefixes of the `startswith` tuple in the source. -/
def namespacePrefixes : List String :=
  ["Wikipedia:", "Template:", "Category:", "File:", "Help:"]

/-- Python `title.startswith(namespacePrefixes-tuple)`: an exact,
case-sensitive prefix match at position 0 against any listed prefix. -/
def isExcludedTitle (t : String) : Bool :=
  namespacePrefixes.any (fun p => p.toList.isPrefixOf t.toList)

/-- The run-level state of `extract_articles`: the two counters, the fields
of the current page, the `in_page` flag, and the records written so far
(most recent first; the sink writes title, newline, cleaned text, newline,
blank line per record). -/
structure ExtractState where
  articleCount : Nat
  textSize : Nat
  currentTitle : Option String
  currentText : Option String
  inPage : Bool
  output : List (String × String)
deriving DecidableEq

/-- The page-close decision of `extract_articles`: `if current_title and
current_text` (Python truthiness), then the namespace-prefix skip, then
`clean = clean_text(current_text)` and `if len(clean) > 100`. Returns the
record to write, or `none` when the page is skipped. -/
def acceptsRecord : Option String → Option String → Option (String × String)
  | some t, some b =>
    if t = "" then none
    else if b = "" then none
    else if isExcludedTitle t then none
    else
      let cleaned := clean_text b
      if 100 < cleaned.length then some (t, cleaned) else none
  | _, _ => none

/-- Python `if max_articles and article_count >= max_articles`: `None` and
`0` are falsy, so they never trigger the cap; otherwise the signed comparison
decides (the CLI parses `max_articles` with `int(...)`, hence `Int`). -/
def capReached (m : Option Int) (count : Nat) : Bool :=
  match m with
  | none => false
  | some k => decide (k ≠ 0) && decide (k ≤ (count : Int))

/-- One iteration of the event loop of `extract_articles`: the state after
the event, and whether the loop breaks (the cap check runs only just after a
record is accepted; on a break `in_page = False` is not executed). -/
def step (m : Option Int) (s : ExtractState) (e : ElemEvent) : ExtractState × Bool :=
  match e with
  | .start tag =>
    if localName tag = "page" then
      ({ s with inPage := true, currentTitle := none, currentText := none }, false)
    else (s, false)
  | .endTag tag txt =>
    if localName tag = "title" ∧ s.inPage = true then
      ({ s with currentTitle := txt }, false)
    else if localName tag = "text" ∧ s.inPage = true then
      ({ s with currentText := txt }, false)
    else if localName tag = "page" then
      match acceptsRecord s.currentTitle s.currentText with
      | some r =>
        let s' : ExtractState :=
          { s with output := r :: s.output,
                   articleCount := s.articleCount + 1,
                   textSize := s.textSize + r.2.length }
        if capReached m s'.articleCount then (s', true)
        else ({ s' with inPage := false }, false)
      | none => ({ s with inPage := false }, false)
    else (s, false)

/-- The event loop: events are consumed in order until they are exhausted or
an iteration breaks. -/
def runEvents (m : Option Int) : ExtractState → List ElemEvent → ExtractState
  | s, [] => s
  | s, e :: rest =>
    if (step m s e).2 then (step m s e).1 else runEvents m (step m s e).1 rest

/-- The counters start at zero, no page is open, nothing is written. -/
def initState : ExtractState :=
  { articleCount := 0, textSize := 0, currentTitle := none,
    currentText := none, inPage := false, output := [] }

/-- `extract_articles(xml_file, output_file, max_articles)` with the parsed
event stream abstracted as a list: the final run state (the final summary
prints its `articleCount` and `textSize`). -/
def extract_articles (m : Option Int) (events : List ElemEvent) : ExtractState :=
  runEvents m initState events

/-- The total size of the cleaned texts of a list of written records. -/
def outputSize (out : List (String × String)) : Nat :=
  (out.map (fun r => r.2.length)).sum

set_option maxRecDepth 40000

/-- The non-greedy template rule exactly as claim C5 words it, for comparison
with the source's rule: delete every minimal span from a double open brace to
the nearest double close brace (the regex with a lazy dot-star in place of the
source's `[^}]*` character class). `dropToDoubleClose` consumes the input
through the first double close brace. -/
def dropToDoubleClose : List Char → Option (List Char)
  | [] => none
  | c :: rest =>
    if c = '}' ∧ rest.take 1 = ['}'] then some (rest.drop 1)
    else dropToDoubleClose rest

def stripTemplatesNonGreedyGo : Nat → List Char → List Char
  | 0, l => l
  | _ + 1, [] => []
  | fuel + 1, c1 :: rest1 =>
    match rest1 with
    | [] => [c1]
    | c2 :: rest2 =>
      if c1 = '{' ∧ c2 = '{' then
        match dropToDoubleClose rest2 with
        | some r => stripTemplatesNonGreedyGo fuel r
        | none => c1 :: stripTemplatesNonGreedyGo fuel rest1
      else c1 :: stripTemplatesNonGreedyGo fuel rest1

def stripTemplatesNonGreedy (l : List Char) : List Char :=
  stripTemplatesNonGreedyGo l.length l

/-- The end-to-end input page body of claim C1. -/
def c1Input : String :=
  "'''Bold''' text with a [[Link|shown]] and \x7b\x7bcite|x\x7d\x7d reference<ref>note</ref> end."

/-- A body of 101 identical letters: cleaning leaves it unchanged, so its
cleaned length 101 clears the length gate `len(clean) > 100`. -/
def body101 : String := String.mk (List.replicate 101 'a')

/-- A body of 100 identical letters: its cleaned length is exactly 100, which
the length gate `len(clean) > 100` rejects. -/
def body100 : String := String.mk (List.replicate 100 'a')

/-- The event stream of one well-formed, eligible page. -/
def page1 : List ElemEvent :=
  [.start "page", .endTag "title" (some "T"), .endTag "text" (some body101),
   .endTag "page" none]

/-- Five otherwise-eligible pages, for the `max_articles = 2` check. -/
def fivePages : List ElemEvent := page1 ++ page1 ++ page1 ++ page1 ++ page1

/-- Three otherwise-eligible pages, for the `max_articles = 0` check. -/
def threePages : List ElemEvent := page1 ++ page1 ++ page1

/-- One page whose cleaned body length is exactly 100. -/
def pageLen100 : List ElemEvent :=
  [.start "page", .endTag "title" (some "T"), .endTag "text" (some body100),
   .endTag "page" none]

/-- One page carrying two title end-events, "A" then "B". -/
def pageTwoTitles : List ElemEvent :=
  [.start "page", .endTag "title" (some "A"), .endTag "title" (some "B"),
   .endTag "text" (some body101), .endTag "page" none]

/-- A mid-run state whose open page carries an excluded namespace title and a
well-formed long body. -/
def wikiState : ExtractState :=
  { initState with currentTitle := some "Wikipedia:Sandbox",
                   currentText := some body101, inPage := true }

/-- A mid-run state whose open page carries an ordinary title and a body of
101 letters. -/
def okState : ExtractState :=
  { initState with currentTitle := some "T", currentText := some body101,
                   inPage := true }

/-- A state with a page open and nothing buffered yet. -/
def openPageState : ExtractState := { initState with inPage := true }

/-! Helper lemmas about list scanning. -/

lemma lenDropWhileLe (p : Char → Bool) : ∀ l : List Char, (l.dropWhile p).length ≤ l.length := by
  intro l
  induction l with
  | nil => simp
  | cons c r ih =>
    by_cases h : p c <;> simp [List.dropWhile, h] <;> omega

lemma dropWhileAppendAll (p : Char → Bool) (xs ys : List Char)
    (h : ∀ x ∈ xs, p x = true) : (xs ++ ys).dropWhile p = ys.dropWhile p := by
  induction xs with
  | nil => simp
  | cons c r ih =>
    have hc : p c = true := h c (by simp)
    simp only [List.cons_append, List.dropWhile, hc]
    exact ih (fun x hx => h x (by simp [hx]))

lemma takeWhileAppendAll (p : Char → Bool) (xs ys : List Char)
    (h : ∀ x ∈ xs, p x = true) : (xs ++ ys).takeWhile p = xs ++ ys.takeWhile p := by
  induction xs with
  | nil => simp
  | cons c r ih =>
    have hc : p c = true := h c (by simp)
    simp only [List.cons_append, List.takeWhile, hc]
    simp only [List.cons.injEq, true_and]
    exact ih (fun x hx => h x (by simp [hx]))

/-! Helper lemmas about one loop iteration. -/

/-- Every iteration either leaves the written records and both counters
unchanged and does not break, or writes exactly one record, increments the
count by one, adds the record's cleaned length to the size, and breaks exactly
when the cap check fires on the new count. -/
lemma step_main (m : Option Int) (s : ExtractState) (e : ElemEvent) :
    ((step m s e).1.output = s.output ∧ (step m s e).1.articleCount = s.articleCount ∧
     (step m s e).1.textSize = s.textSize ∧ (step m s e).2 = false) ∨
    (∃ r, (step m s e).1.output = r :: s.output ∧
     (step m s e).1.articleCount = s.articleCount + 1 ∧
     (step m s e).1.textSize = s.textSize + r.2.length ∧
     (step m s e).2 = capReached m (s.articleCount + 1)) := by
  cases e with
  | start tag =>
    left
    simp only [step]
    split <;> simp
  | endTag tag txt =>
    rcases har : acceptsRecord s.currentTitle s.currentText with _ | r
    · left
      simp only [step, har]
      split_ifs <;> simp
    · simp only [step, har]
      split_ifs with h1 h2 h3 h4
      · left; simp
      · left; simp
      · right; exact ⟨r, by simp, by simp, by simp, by simp [h4]⟩
      · right; exact ⟨r, by simp, by simp, by simp, by simp [h4]⟩
      · left; simp

/-- With no cap, an iteration never breaks. -/
lemma step_none_noBreak (s : ExtractState) (e : ElemEvent) : (step none s e).2 = false := by
  rcases step_main none s e with ⟨_, _, _, hb⟩ | ⟨r, _, _, _, hb⟩
  · exact hb
  · simpa [capReached] using hb

/-- With no cap the cap check never fires. -/
lemma capReachedNone (c : Nat) : capReached none c = false := rfl

/-- An iteration that does not break computes the same state as the uncapped
iteration: the cap only influences the break flag. -/
lemma step_brk_false_eq (m : Option Int) (s : ExtractState) (e : ElemEvent)
    (hb : (step m s e).2 = false) : step m s e = step none s e := by
  cases e with
  | start tag => rfl
  | endTag tag txt =>
    rcases har : acceptsRecord s.currentTitle s.currentText with _ | r
    · simp only [step, har]
    · simp only [step, har] at hb ⊢
      by_cases h1 : localName tag = "title" ∧ s.inPage = true
      · simp [h1]
      · by_cases h2 : localName tag = "text" ∧ s.inPage = true
        · simp [h1, h2]
        · by_cases h3 : localName tag = "page"
          · simp only [if_neg h1, if_neg h2, if_pos h3] at hb ⊢
            by_cases h4 : capReached m (s.articleCount + 1) = true
            · rw [if_pos h4] at hb
              simp at hb
            · rw [if_neg h4]
              simp [capReachedNone]
          · simp [h1, h2, h3]

/-- An iteration that breaks has just accepted: the count went up by one, the
cap fired on the new count, and the uncapped iteration accepts the same
record. -/
lemma step_brk_true (m : Option Int) (s : ExtractState) (e : ElemEvent)
    (hb : (step m s e).2 = true) :
    (step m s e).1.articleCount = s.articleCount + 1 ∧
    capReached m (s.articleCount + 1) = true ∧
    (step none s e).1.articleCount = s.articleCount + 1 := by
  cases e with
  | start tag =>
    exfalso
    simp only [step] at hb
    split_ifs at hb <;> simp at hb
  | endTag tag txt =>
    rcases har : acceptsRecord s.currentTitle s.currentText with _ | r
    · exfalso
      simp only [step, har] at hb
      split_ifs at hb <;> simp at hb
    · simp only [step, har] at hb ⊢
      by_cases h1 : localName tag = "title" ∧ s.inPage = true
      · rw [if_pos h1] at hb
        simp at hb
      · by_cases h2 : localName tag = "text" ∧ s.inPage = true
        · rw [if_neg h1, if_pos h2] at hb
          simp at hb
        · by_cases h3 : localName tag = "page"
          · simp only [if_neg h1, if_neg h2, if_pos h3] at hb ⊢
            by_cases h4 : capReached m (s.articleCount + 1) = true
            · rw [if_pos h4] at hb
              refine ⟨by rw [if_pos h4], h4, ?_⟩
              simp [capReachedNone]
            · exfalso
              rw [if_neg h4] at hb
              simp at hb
          · rw [if_neg h1, if_neg h2, if_neg h3] at hb
            simp at hb

/-- The accepted count never decreases along a run. -/
lemma runEvents_count_mono (m : Option Int) :
    ∀ (events : List ElemEvent) (s : ExtractState),
      s.articleCount ≤ (runEvents m s events).articleCount := by
  intro events
  induction events with
  | nil => intro s; simp [runEvents]
  | cons e rest ih =>
    intro s
    have hcount : s.articleCount ≤ (step m s e).1.articleCount := by
      rcases step_main m s e with ⟨_, hc, _, _⟩ | ⟨r, _, hc, _, _⟩ <;> omega
    cases hb : (step m s e).2 <;> simp only [runEvents, hb]
    · exact le_trans hcount (ih (step m s e).1)
    · simpa using hcount

/-- Along any run the accepted count equals the number of written records and
the size counter equals the total cleaned length of the written records. -/
lemma runEvents_inv (m : Option Int) :
    ∀ (events : List ElemEvent) (s : ExtractState),
      s.articleCount = s.output.length → s.textSize = outputSize s.output →
      (runEvents m s events).articleCount = (runEvents m s events).output.length ∧
      (runEvents m s events).textSize = outputSize (runEvents m s events).output := by
  intro events
  induction events with
  | nil =>
    intro s h1 h2
    exact ⟨by simpa [runEvents] using h1, by simpa [runEvents] using h2⟩
  | cons e rest ih =>
    intro s h1 h2
    have hstep : (step m s e).1.articleCount = (step m s e).1.output.length ∧
        (step m s e).1.textSize = outputSize (step m s e).1.output := by
      rcases step_main m s e with ⟨ho, hc, ht, _⟩ | ⟨r, ho, hc, ht, _⟩
      · rw [ho, hc, ht]; exact ⟨h1, h2⟩
      · rw [ho, hc, ht]
        refine ⟨by simp [h1], ?_⟩
        simp only [outputSize, List.map_cons, List.sum_cons]
        rw [h2]
        simp [outputSize]
        omega
    cases hb : (step m s e).2 <;> simp only [runEvents, hb]
    · exact ih (step m s e).1 hstep.1 hstep.2
    · simpa using hstep

/-- A cap of `0` is falsy in Python, so the run with cap `0` is the uncapped
run, state for state. -/
lemma runEvents_zero_eq_none :
    ∀ (events : List ElemEvent) (s : ExtractState),
      runEvents (some 0) s events = runEvents none s events := by
  intro events
  induction events with
  | nil => intro s; rfl
  | cons e rest ih =>
    intro s
    have hb : (step (some 0) s e).2 = false := by
      rcases step_main (some 0) s e with ⟨_, _, _, h⟩ | ⟨r, _, _, _, h⟩
      · exact h
      · rw [h]; simp [capReached]
    have heq : step (some 0) s e = step none s e := step_brk_false_eq _ _ _ hb
    simp only [runEvents, hb, heq, step_none_noBreak]
    exact ih (step none s e).1

/-- Coupling of a capped run with the uncapped run: starting strictly below a
positive cap, the capped run accepts exactly the minimum of the cap and the
uncapped total. -/
lemma capped_count_min (mA : Int) (hm : 0 < mA) :
    ∀ (events : List ElemEvent) (s : ExtractState), (s.articleCount : Int) < mA →
      (runEvents (some mA) s events).articleCount
        = min mA.toNat (runEvents none s events).articleCount := by
  intro events
  induction events with
  | nil =>
    intro s hs
    simp only [runEvents]
    omega
  | cons e rest ih =>
    intro s hs
    cases hb : (step (some mA) s e).2
    · have heq := step_brk_false_eq (some mA) s e hb
      have hlt : ((step (some mA) s e).1.articleCount : Int) < mA := by
        rcases step_main (some mA) s e with ⟨_, hc, _, _⟩ | ⟨r, _, hc, _, hbr⟩
        · rw [hc]; exact hs
        · rw [hb] at hbr
          rw [hc]
          simp [capReached] at hbr
          push_cast
          omega
      simp only [runEvents, hb, step_none_noBreak]
      rw [heq] at hlt ⊢
      exact ih (step none s e).1 hlt
    · have hinfo := step_brk_true (some mA) s e hb
      have hcap := hinfo.2.1
      have hm1 : mA ≤ (s.articleCount : Int) + 1 := by
        simp [capReached] at hcap
        push_cast at hcap
        omega
      have hmono := runEvents_count_mono none rest (step none s e).1
      rw [hinfo.2.2] at hmono
      have hL : (runEvents (some mA) s (e :: rest)).articleCount
          = (step (some mA) s e).1.articleCount := by
        simp [runEvents, hb]
      have hR : (runEvents none s (e :: rest)).articleCount
          = (runEvents none (step none s e).1 rest).articleCount := by
        simp [runEvents, step_none_noBreak]
      rw [hL, hR, hinfo.1]
      omega

lemma consNeSelf {α : Type} (a : α) (l : List α) : a :: l ≠ l := by
  intro h
  have := congrArg List.length h
  simp at this

/-- A candidate whose title or body is absent or empty, or whose title is in
an excluded namespace, is not accepted. -/
lemma acceptsRecord_none_of (t b : Option String)
    (h : truthy t = false ∨ truthy b = false ∨
      ∃ x, t = some x ∧ isExcludedTitle x = true) :
    acceptsRecord t b = none := by
  rcases t with _ | ts
  · rfl
  rcases b with _ | bs
  · rfl
  rcases h with h | h | ⟨x, hx, hex⟩
  · have hts : ts = "" := by simpa [truthy] using h
    simp [acceptsRecord, hts]
  · have hbs : bs = "" := by simpa [truthy] using h
    simp [acceptsRecord, hbs]
  · obtain rfl := Option.some.inj hx
    simp [acceptsRecord, hex]

/-- Claim C7: for every candidate record, if its title or its rawText is
absent or empty, or if its title starts (exact, case-sensitive prefix at
position 0) with one of "Wikipedia:", "Template:", "Category:", "File:",
"Help:", then on page close no output record is produced for it, regardless
of body content, the counters keep their values, and the run continues
normally (the iteration returns rather than raising). -/
theorem c7_preclean_filter (m : Option Int) (s : ExtractState) (txt : Option String)
    (h : truthy s.currentTitle = false ∨ truthy s.currentText = false ∨
      ∃ t, s.currentTitle = some t ∧ isExcludedTitle t = true) :
    (step m s (ElemEvent.endTag "page" txt)).1.output = s.output ∧
    (step m s (ElemEvent.endTag "page" txt)).1.articleCount = s.articleCount ∧
    (step m s (ElemEvent.endTag "page" txt)).2 = false := by
  have har : acceptsRecord s.currentTitle s.currentText = none :=
    acceptsRecord_none_of _ _ h
  have hn1 : ¬(localName "page" = "title" ∧ s.inPage = true) := by
    rintro ⟨hc, -⟩
    exact absurd hc (by decide)
  have hn2 : ¬(localName "page" = "text" ∧ s.inPage = true) := by
    rintro ⟨hc, -⟩
    exact absurd hc (by decide)
  simp only [step, har, if_neg hn1, if_neg hn2,
    if_pos (rfl : localName "page" = "page")]
  exact ⟨rfl, rfl, rfl⟩

/-- Witness for C7: a page whose title is "Wikipedia:Sandbox" with a long
well-formed body is rejected without writing and without error. -/
theorem c7_preclean_filter_witness :
    (step none wikiState (ElemEvent.endTag "page" none)).1.output = wikiState.output ∧
    (step none wikiState (ElemEvent.endTag "page" none)).1.articleCount = wikiState.articleCount ∧
    (step none wikiState (ElemEvent.endTag "page" none)).2 = false :=
  c7_preclean_filter none wikiState none
    (Or.inr (Or.inr ⟨"Wikipedia:Sandbox", rfl, by decide⟩))

/-- Unfolding of one iteration at a page-close event: the candidate decision,
then the write, the counter updates and the cap check. Holds by computation
(the tag comparisons evaluate). -/
lemma step_endPage (m : Option Int) (s : ExtractState) (txt : Option String) :
    step m s (ElemEvent.endTag "page" txt)
      = match acceptsRecord s.currentTitle s.currentText with
        | some r =>
          if capReached m (s.articleCount + 1)
          then ({ s with output := r :: s.output,
                         articleCount := s.articleCount + 1,
                         textSize := s.textSize + r.2.length }, true)
          else ({ s with output := r :: s.output,
                         articleCount := s.articleCount + 1,
                         textSize := s.textSize + r.2.length,
                         inPage := false }, false)
        | none => ({ s with inPage := false }, false) := rfl

/-- Counterexample to claim C2: a well-formed candidate whose cleaned text
has length exactly 100 — not strictly below the minimum, so the claim says it
is accepted and written — produces no output record, because the source
accepts only lengths strictly greater than 100. -/
theorem c2_counterexample :
    (clean_text body100).length = 100 ∧
    (extract_articles none pageLen100).output = [] := ⟨rfl, rfl⟩

/-- Claim C2 as amended: for a candidate that passes the pre-clean filter,
the page-close iteration rejects it exactly when its cleaned length is at
most 100 (strictly below 101), and writes it exactly when its cleaned length
is strictly greater than 100; a record of cleaned length exactly 100 is
rejected. -/
theorem c2_amended_post_filter (m : Option Int) (s : ExtractState)
    (txt : Option String) (t b : String)
    (ht : s.currentTitle = some t) (hb : s.currentText = some b)
    (ht' : t ≠ "") (hb' : b ≠ "") (hex : isExcludedTitle t = false) :
    ((step m s (ElemEvent.endTag "page" txt)).1.output = s.output ↔
      (clean_text b).length ≤ 100) ∧
    ((step m s (ElemEvent.endTag "page" txt)).1.output = (t, clean_text b) :: s.output ↔
      100 < (clean_text b).length) := by
  by_cases hlen : 100 < (clean_text b).length
  · have har : acceptsRecord s.currentTitle s.currentText = some (t, clean_text b) := by
      rw [ht, hb]
      simp [acceptsRecord, ht', hb', hex, hlen]
    rw [step_endPage, har]
    dsimp only
    constructor
    · constructor
      · intro hout
        exfalso
        by_cases hcap : capReached m (s.articleCount + 1) = true
        · rw [if_pos hcap] at hout
          exact consNeSelf _ _ hout
        · rw [if_neg hcap] at hout
          exact consNeSelf _ _ hout
      · intro hle
        omega
    · refine ⟨fun _ => hlen, fun _ => ?_⟩
      by_cases hcap : capReached m (s.articleCount + 1) = true
      · rw [if_pos hcap]
      · rw [if_neg hcap]
  · have har : acceptsRecord s.currentTitle s.currentText = none := by
      rw [ht, hb]
      simp [acceptsRecord, ht', hb', hex, hlen]
    rw [step_endPage, har]
    dsimp only
    refine ⟨⟨fun _ => by omega, fun _ => rfl⟩, ⟨fun hout => ?_, fun hc => absurd hc hlen⟩⟩
    exact absurd hout.symm (consNeSelf (t, clean_text b) s.output)

/-- Witness for the amended C2: a candidate with title "T" and a 101-letter
body (cleaned length 101) is written on page close. -/
theorem c2_amended_post_filter_witness :
    (step none okState (ElemEvent.endTag "page" none)).1.output
      = ("T", clean_text body101) :: okState.output :=
  ((c2_amended_post_filter none okState none "T" body101 rfl rfl
      (by decide) (by decide) (by decide)).2).mpr (by decide)

/-- Counterexample to claim C3: a page with two title end-events, "A" then
"B", emits a record whose title is "B" — the later title replaced the first,
while the claim says the first title "A" is kept. -/
theorem c3_counterexample :
    (extract_articles none pageTwoTitles).output.map Prod.fst = ["B"] ∧
    ("B" : String) ≠ "A" := ⟨rfl, by decide⟩

/-- Claim C3 as amended: while a page is open, every title end-event
overwrites the buffered title, so the candidate record emitted when the page
closes carries the text of the last title element seen in that page. -/
theorem c3_amended_last_title (m : Option Int) (s : ExtractState)
    (txt txt' : Option String) (h : s.inPage = true) :
    (step m s (ElemEvent.endTag "title" txt)).1.currentTitle = txt ∧
    (step m ((step m s (ElemEvent.endTag "title" txt)).1)
        (ElemEvent.endTag "title" txt')).1.currentTitle = txt' := by
  have e1 : step m s (ElemEvent.endTag "title" txt)
      = ({ s with currentTitle := txt }, false) := by
    simp only [step, if_pos (show localName "title" = "title" ∧ s.inPage = true
      from ⟨rfl, h⟩)]
  have e2 : step m ({ s with currentTitle := txt } : ExtractState)
        (ElemEvent.endTag "title" txt')
      = ({ s with currentTitle := txt' }, false) := by
    simp only [step, if_pos (show localName "title" = "title" ∧
      ({ s with currentTitle := txt } : ExtractState).inPage = true from ⟨rfl, h⟩)]
  rw [e1]
  exact ⟨rfl, by rw [e2]⟩

/-- Witness for the amended C3: from an open page, title events "A" then "B"
leave "B" buffered. -/
theorem c3_amended_last_title_witness :
    (step none openPageState (ElemEvent.endTag "title" (some "A"))).1.currentTitle
      = some "A" ∧
    (step none ((step none openPageState (ElemEvent.endTag "title" (some "A"))).1)
        (ElemEvent.endTag "title" (some "B"))).1.currentTitle = some "B" :=
  c3_amended_last_title none openPageState (some "A") (some "B") rfl

/-- Claim C9: a cap of `0` — excluded by the spec, which requires a positive
integer — disables the cap entirely, because the check tests the truthiness
of `max_articles` first: the run with cap `0` equals the uncapped run state
for state, and on three eligible pages it writes all three records rather
than zero. -/
theorem c9_zero_cap_uncapped :
    (∀ events : List ElemEvent,
       extract_articles (some 0) events = extract_articles none events) ∧
    (extract_articles (some 0) threePages).output.length = 3 := by
  constructor
  · intro events
    exact runEvents_zero_eq_none events initState
  · rfl

/-- Claim C10: throughout a run and at completion, `article_count` equals the
number of records written so far and `text_size` equals the sum of the
cleaned lengths of exactly those records (the final summary prints these two
state fields); moreover each iteration either writes nothing and leaves both
counters unchanged, or writes exactly one record and increments
`article_count` by exactly 1. -/
theorem c10_counters_track_output :
    (∀ (m : Option Int) (events : List ElemEvent),
       (extract_articles m events).articleCount
           = (extract_articles m events).output.length ∧
       (extract_articles m events).textSize
           = outputSize (extract_articles m events).output) ∧
    (∀ (m : Option Int) (s : ExtractState) (e : ElemEvent),
       ((step m s e).1.output = s.output ∧
        (step m s e).1.articleCount = s.articleCount ∧
        (step m s e).1.textSize = s.textSize) ∨
       (∃ r, (step m s e).1.output = r :: s.output ∧
        (step m s e).1.articleCount = s.articleCount + 1 ∧
        (step m s e).1.textSize = s.textSize + r.2.length)) := by
  constructor
  · intro m events
    exact runEvents_inv m events initState rfl rfl
  · intro m s e
    rcases step_main m s e with ⟨ho, hc, ht, -⟩ | ⟨r, ho, hc, ht, -⟩
    · exact Or.inl ⟨ho, hc, ht⟩
    · exact Or.inr ⟨r, ho, hc, ht⟩

/-- Claim C8: for every event stream and every positive integer cap, the run
writes exactly the minimum of the cap and the number of eligible pages (the
records the uncapped run would write) and then stops normally; the loop is a
total function, so the early stop is a graceful break, not an error. -/
theorem c8_max_articles_cap (mA : Int) (hm : 0 < mA) (events : List ElemEvent) :
    (extract_articles (some mA) events).output.length
      = min mA.toNat (extract_articles none events).output.length := by
  have h1 := capped_count_min mA hm events initState (by simpa using hm)
  have h2 := (runEvents_inv (some mA) events initState rfl rfl).1
  have h3 := (runEvents_inv none events initState rfl rfl).1
  unfold extract_articles
  rw [← h2, ← h3]
  exact h1

/-- Witness for C8: with `max_articles = 2` on five otherwise-eligible pages
exactly two records are written. -/
theorem c8_max_articles_cap_witness :
    (0 : Int) < 2 ∧ (extract_articles (some 2) fivePages).output.length = 2 := by
  refine ⟨by norm_num, ?_⟩
  have h := c8_max_articles_cap 2 (by norm_num) fivePages
  rw [h]
  rfl

/-- Counterexample to claim C1: on the end-to-end input the Text Cleaner does
not return the claimed string with the word "reference" dropped and the
double space preserved. -/
theorem c1_counterexample :
    clean_text c1Input ≠ "Bold text with a shown and  end." := by decide

/-- Claim C1 as amended: on the end-to-end input the Text Cleaner returns
exactly "Bold text with a shown and reference end.": the word "reference"
survives (only the template and the reference span are deleted), and the
double space left by the removed template is collapsed to a single space,
because the space rule collapses every run of one or more spaces. -/
theorem c1_amended_end_to_end :
    clean_text c1Input = "Bold text with a shown and reference end." := rfl

/-- Claim C4: the implemented pipeline cleans `"<ref>x</ref>y"` to `"y"`,
while the variant pipeline that runs generic tag stripping before reference
stripping leaves `"xy"`; the two rule orderings therefore differ, and the
implemented order strips references first. -/
theorem c4_ordering_matters :
    clean_text "<ref>x</ref>y" = "y" ∧
    clean_text_tagsFirst "<ref>x</ref>y" = "xy" ∧
    clean_text "<ref>x</ref>y" ≠ clean_text_tagsFirst "<ref>x</ref>y" :=
  ⟨rfl, rfl, by decide⟩

/-- Counterexample to claim C5: the input consisting of a double open brace,
`a`, a lone close brace, `b`, and a double close brace. The minimal
(non-greedy) span reading deletes the whole input (`stripTemplatesNonGreedy`
returns the empty list), but the source's rule leaves the input untouched,
because its character class forbids any close brace inside the span. -/
theorem c5_counterexample :
    stripTemplatesNonGreedy "\x7b\x7ba\x7db\x7d\x7d".toList = [] ∧
    stripTemplates "\x7b\x7ba\x7db\x7d\x7d".toList = "\x7b\x7ba\x7db\x7d\x7d".toList ∧
    clean_text "\x7b\x7ba\x7db\x7d\x7d" = "\x7b\x7ba\x7db\x7d\x7d" := ⟨rfl, rfl, rfl⟩

/-- The template scanner does not depend on the fuel once the fuel covers the
input length (each step consumes at least one character). -/
lemma stripTemplatesGo_congr :
    ∀ (n f1 f2 : Nat) (l : List Char), l.length ≤ n → l.length ≤ f1 → l.length ≤ f2 →
      stripTemplatesGo f1 l = stripTemplatesGo f2 l := by
  intro n
  induction n with
  | zero =>
    intro f1 f2 l hn h1 h2
    have hl : l = [] := List.eq_nil_of_length_eq_zero (Nat.le_zero.mp hn)
    subst hl
    cases f1 <;> cases f2 <;> rfl
  | succ n ih =>
    intro f1 f2 l hn h1 h2
    cases l with
    | nil => cases f1 <;> cases f2 <;> rfl
    | cons c1 rest1 =>
      cases f1 with
      | zero => simp at h1
      | succ f1 =>
        cases f2 with
        | zero => simp at h2
        | succ f2 =>
          simp only [stripTemplatesGo]
          cases rest1 with
          | nil => rfl
          | cons c2 rest2 =>
            dsimp only
            have hrec1 : stripTemplatesGo f1 (c2 :: rest2) = stripTemplatesGo f2 (c2 :: rest2) := by
              refine ih f1 f2 (c2 :: rest2) ?_ ?_ ?_ <;>
                simp only [List.length_cons] at hn h1 h2 ⊢ <;> omega
            by_cases hb : c1 = '{' ∧ c2 = '{'
            · rw [if_pos hb, if_pos hb]
              rcases hd : rest2.dropWhile (fun c => c != '}') with _ | ⟨d1, _ | ⟨d2, r⟩⟩
              · simp only [hd]
                rw [hrec1]
              · simp only [hd]
                rw [hrec1]
              · simp only [hd]
                by_cases hdd : d1 = '}' ∧ d2 = '}'
                · rw [if_pos hdd, if_pos hdd]
                  have hlen : r.length + 2 ≤ rest2.length := by
                    have hle := lenDropWhileLe (fun c => c != '}') rest2
                    rw [hd] at hle
                    simp only [List.length_cons] at hle
                    omega
                  refine ih f1 f2 r ?_ ?_ ?_ <;>
                    simp only [List.length_cons] at hn h1 h2 <;> omega
                · rw [if_neg hdd, if_neg hdd, hrec1]
            · rw [if_neg hb, if_neg hb, hrec1]

/-- Any sufficient fuel computes `stripTemplates`. -/
lemma stripTemplatesGo_fuel (f : Nat) (l : List Char) (h : l.length ≤ f) :
    stripTemplatesGo f l = stripTemplates l :=
  stripTemplatesGo_congr l.length f l.length l le_rfl h le_rfl

/-- One matching step of the template scanner: a span of a double open brace,
a body free of close braces, and a double close brace is deleted, and the
scan continues after it. -/
lemma stripTemplatesGo_matchStep (fuel : Nat) (body rest : List Char)
    (h : ∀ c ∈ body, ¬ c = '}') :
    stripTemplatesGo (fuel + 1) ('{' :: '{' :: (body ++ '}' :: '}' :: rest))
      = stripTemplatesGo fuel rest := by
  have hdrop : (body ++ '}' :: '}' :: rest).dropWhile (fun c => c != '}')
      = '}' :: '}' :: rest := by
    rw [dropWhileAppendAll]
    · simp [List.dropWhile]
    · intro x hx
      simpa using h x hx
  simp [stripTemplatesGo, hdrop]

/-- The template-removal rule deletes a whole-span match and continues on the
remainder. -/
lemma stripTemplates_span (body rest : List Char) (h : ∀ c ∈ body, ¬ c = '}') :
    stripTemplates ('{' :: '{' :: (body ++ '}' :: '}' :: rest)) = stripTemplates rest := by
  show stripTemplatesGo ('{' :: '{' :: (body ++ '}' :: '}' :: rest)).length _ = _
  rw [show ('{' :: '{' :: (body ++ '}' :: '}' :: rest)).length
      = (body.length + rest.length + 3) + 1 from by simp; omega]
  rw [stripTemplatesGo_matchStep _ _ _ h]
  exact stripTemplatesGo_fuel _ _ (by omega)

/-- A pipeless link match consumes at least the two closing brackets. -/
lemma linkNoPipe_length (l rep r : List Char) (h : linkNoPipe l = some (rep, r)) :
    r.length + 2 ≤ l.length := by
  unfold linkNoPipe at h
  rcases hd : l.dropWhile (fun c => c != ']') with _ | ⟨d1, _ | ⟨d2, r'⟩⟩ <;>
    simp only [hd] at h
  · exact absurd h (by simp)
  · exact absurd h (by simp)
  · by_cases hdd : d1 = ']' ∧ d2 = ']'
    · rw [if_pos hdd] at h
      have hle := lenDropWhileLe (fun c => c != ']') l
      rw [hd] at hle
      simp only [List.length_cons] at hle
      obtain ⟨-, rfl⟩ := Prod.mk.inj (Option.some.inj h)
      omega
    · rw [if_neg hdd] at h
      exact absurd h (by simp)

/-- A link match consumes at least the two closing brackets. -/
lemma linkMatch_length (l rep r : List Char) (h : linkMatch l = some (rep, r)) :
    r.length + 2 ≤ l.length := by
  unfold linkMatch at h
  rcases hd : l.dropWhile (fun c => c != '|' && c != ']') with _ | ⟨p, afterPipe⟩ <;>
    simp only [hd] at h
  · exact linkNoPipe_length l rep r h
  · by_cases hp : p = '|'
    · rw [if_pos hp] at h
      have hle1 := lenDropWhileLe (fun c => c != '|' && c != ']') l
      rw [hd] at hle1
      simp only [List.length_cons] at hle1
      rcases hd2 : afterPipe.dropWhile (fun c => c != ']') with _ | ⟨d1, _ | ⟨d2, r'⟩⟩ <;>
        simp only [hd2] at h
      · exact linkNoPipe_length l rep r h
      · exact linkNoPipe_length l rep r h
      · by_cases hdd : d1 = ']' ∧ d2 = ']'
        · rw [if_pos hdd] at h
          have hle2 := lenDropWhileLe (fun c => c != ']') afterPipe
          rw [hd2] at hle2
          simp only [List.length_cons] at hle2
          obtain ⟨-, rfl⟩ := Prod.mk.inj (Option.some.inj h)
          omega
        · rw [if_neg hdd] at h
          exact linkNoPipe_length l rep r h
    · rw [if_neg hp] at h
      exact linkNoPipe_length l rep r h

/-- The link scanner does not depend on the fuel once the fuel covers the
input length. -/
lemma removeLinksGo_congr :
    ∀ (n f1 f2 : Nat) (l : List Char), l.length ≤ n → l.length ≤ f1 → l.length ≤ f2 →
      removeLinksGo f1 l = removeLinksGo f2 l := by
  intro n
  induction n with
  | zero =>
    intro f1 f2 l hn h1 h2
    have hl : l = [] := List.eq_nil_of_length_eq_zero (Nat.le_zero.mp hn)
    subst hl
    cases f1 <;> cases f2 <;> rfl
  | succ n ih =>
    intro f1 f2 l hn h1 h2
    cases l with
    | nil => cases f1 <;> cases f2 <;> rfl
    | cons c1 rest1 =>
      cases f1 with
      | zero => simp at h1
      | succ f1 =>
        cases f2 with
        | zero => simp at h2
        | succ f2 =>
          simp only [removeLinksGo]
          cases rest1 with
          | nil => rfl
          | cons c2 rest2 =>
            dsimp only
            have hrec1 : removeLinksGo f1 (c2 :: rest2) = removeLinksGo f2 (c2 :: rest2) := by
              refine ih f1 f2 (c2 :: rest2) ?_ ?_ ?_ <;>
                simp only [List.length_cons] at hn h1 h2 ⊢ <;> omega
            by_cases hb : c1 = '[' ∧ c2 = '['
            · rw [if_pos hb, if_pos hb]
              rcases hm : linkMatch rest2 with _ | ⟨rep, r⟩
              · simp only [hm]
                rw [hrec1]
              · simp only [hm]
                have hlen := linkMatch_length rest2 rep r hm
                refine congrArg _ (ih f1 f2 r ?_ ?_ ?_) <;>
                  simp only [List.length_cons] at hn h1 h2 <;> omega
            · rw [if_neg hb, if_neg hb, hrec1]

/-- Any sufficient fuel computes `removeLinks`. -/
lemma removeLinksGo_fuel (f : Nat) (l : List Char) (h : l.length ≤ f) :
    removeLinksGo f l = removeLinks l :=
  removeLinksGo_congr l.length f l.length l le_rfl h le_rfl

/-- One matching step of the link scanner: at `[[`, a successful `linkMatch`
emits its group 2 and the scan continues after the matched span. -/
lemma removeLinks_matchStep (l rep r : List Char) (hm : linkMatch l = some (rep, r)) :
    removeLinks ('[' :: '[' :: l) = rep ++ removeLinks r := by
  show removeLinksGo ('[' :: '[' :: l).length _ = _
  rw [show ('[' :: '[' :: l).length = (l.length + 1) + 1 from by simp]
  simp only [removeLinksGo, hm]
  rw [if_pos (And.intro trivial trivial)]
  refine congrArg _ (removeLinksGo_fuel _ _ ?_)
  have := linkMatch_length l rep r hm
  omega

/-- A span `target|display` followed by `]]`: the piped link pattern matches,
with group 2 equal to the display text. -/
lemma linkMatch_pipe (t d rest : List Char)
    (ht : ∀ c ∈ t, ¬ c = '|' ∧ ¬ c = ']') (hd : ∀ c ∈ d, ¬ c = ']') :
    linkMatch (t ++ '|' :: (d ++ ']' :: ']' :: rest)) = some (d, rest) := by
  have h1 : (t ++ '|' :: (d ++ ']' :: ']' :: rest)).dropWhile
        (fun c => c != '|' && c != ']')
      = '|' :: (d ++ ']' :: ']' :: rest) := by
    rw [dropWhileAppendAll]
    · simp [List.dropWhile]
    · intro x hx
      have hc := ht x hx
      simp [hc.1, hc.2]
  have h2 : (d ++ ']' :: ']' :: rest).dropWhile (fun c => c != ']')
      = ']' :: ']' :: rest := by
    rw [dropWhileAppendAll]
    · simp [List.dropWhile]
    · intro x hx
      simpa using hd x hx
  have h3 : (d ++ ']' :: ']' :: rest).takeWhile (fun c => c != ']') = d := by
    rw [takeWhileAppendAll]
    · simp [List.takeWhile]
    · intro x hx
      simpa using hd x hx
  unfold linkMatch
  simp only [h1]
  rw [if_pos trivial]
  simp only [h2]
  rw [if_pos (And.intro trivial trivial)]
  rw [h3]

/-- A span `target` with no pipe followed by `]]`: the pipeless link pattern
matches, with group 2 equal to the target text. -/
lemma linkMatch_plain (t rest : List Char)
    (ht : ∀ c ∈ t, ¬ c = '|' ∧ ¬ c = ']') :
    linkMatch (t ++ ']' :: ']' :: rest) = some (t, rest) := by
  have h1 : (t ++ ']' :: ']' :: rest).dropWhile (fun c => c != '|' && c != ']')
      = ']' :: (']' :: rest) := by
    rw [dropWhileAppendAll]
    · simp [List.dropWhile]
    · intro x hx
      have hc := ht x hx
      simp [hc.1, hc.2]
  have h2 : (t ++ ']' :: ']' :: rest).dropWhile (fun c => c != ']')
      = ']' :: ']' :: rest := by
    rw [dropWhileAppendAll]
    · simp [List.dropWhile]
    · intro x hx
      simpa using (ht x hx).2
  have h3 : (t ++ ']' :: ']' :: rest).takeWhile (fun c => c != ']') = t := by
    rw [takeWhileAppendAll]
    · simp [List.takeWhile]
    · intro x hx
      simpa using (ht x hx).2
  unfold linkMatch
  simp only [h1]
  rw [if_neg (show ¬ (']' : Char) = '|' by decide)]
  unfold linkNoPipe
  simp only [h2]
  rw [if_pos (And.intro trivial trivial)]
  rw [h3]

/-- Claim C5 as amended: the template-removal step deletes every span made of
a double open brace, a body containing no close-brace character, and a double
close brace (the source's character class `[^}]*` forbids any close brace
inside the span, so the match ends at the first close brace, which must start
the double close marker); in particular a body that is exactly such a span
cleans to the empty string. -/
theorem c5_amended_templates :
    (∀ (body rest : List Char), (∀ c ∈ body, ¬ c = '}') →
       stripTemplates ('{' :: '{' :: (body ++ '}' :: '}' :: rest))
         = stripTemplates rest) ∧
    clean_text "\x7b\x7bInfobox|x=1\x7d\x7d" = "" :=
  ⟨fun body rest h => stripTemplates_span body rest h, rfl⟩

/-- Witness for the amended C5: the span with body `Infobox|x=1` is deleted
in one step. -/
theorem c5_amended_templates_witness :
    stripTemplates ('{' :: '{' :: ("Infobox|x=1".toList ++ '}' :: '}' :: []))
      = stripTemplates [] :=
  c5_amended_templates.1 "Infobox|x=1".toList [] (by decide)

/-- Claim C6: in the link-unwrapping step, a span `[[target|display]]` is
replaced by `display` and a span `[[target]]` with no pipe is replaced by
`target` (the target free of pipe and close-bracket characters, the display
free of close-bracket characters, as the span shapes require); in particular
`[[Cat|Cats]]` cleans to `Cats` and `[[Dog]]` cleans to `Dog`. -/
theorem c6_link_unwrapping :
    (∀ (t d rest : List Char),
       (∀ c ∈ t, ¬ c = '|' ∧ ¬ c = ']') → (∀ c ∈ d, ¬ c = ']') →
       removeLinks ('[' :: '[' :: (t ++ '|' :: (d ++ ']' :: ']' :: rest)))
         = d ++ removeLinks rest) ∧
    (∀ (t rest : List Char), (∀ c ∈ t, ¬ c = '|' ∧ ¬ c = ']') →
       removeLinks ('[' :: '[' :: (t ++ ']' :: ']' :: rest))
         = t ++ removeLinks rest) ∧
    clean_text "[[Cat|Cats]]" = "Cats" ∧ clean_text "[[Dog]]" = "Dog" := by
  refine ⟨?_, ?_, rfl, rfl⟩
  · intro t d rest ht hd
    exact removeLinks_matchStep _ _ _ (linkMatch_pipe t d rest ht hd)
  · intro t rest ht
    exact removeLinks_matchStep _ _ _ (linkMatch_plain t rest ht)

/-- Witness for C6: the spans of `[[Cat|Cats]]` and `[[Dog]]` unwrap to
`Cats` and `Dog`. -/
theorem c6_link_unwrapping_witness :
    removeLinks ('[' :: '[' :: ("Cat".toList ++ '|' :: ("Cats".toList ++ ']' :: ']' :: [])))
      = "Cats".toList ++ removeLinks [] ∧
    removeLinks ('[' :: '[' :: ("Dog".toList ++ ']' :: ']' :: []))
      = "Dog".toList ++ removeLinks [] :=
  ⟨c6_link_unwrapping.1 "Cat".toList "Cats".toList [] (by decide) (by decide),
   c6_link_unwrapping.2.1 "Dog".toList [] (by decide)⟩
